import Mathlib

/-!
Shallow embedding of the Discord / Home Assistant bridge bot
(src/discord/ha_bot/discord_ha_bot.py): the name normalizer, the directory
store of aliases and groups, the entity catalog, the resolver and the
numeric-suffix expansion, together with theorems checking the
specification's claims about them.

Strings are modelled as lists of characters (`Str`); Python dicts are
modelled as association lists with Python's insert/update semantics
(`dictGet` / `dictInsert`).  ASCII is assumed for the character-level
operations (lowercasing, whitespace), matching the bot's inputs.
-/

abbrev Str : Type := List Char

/-- ASCII lowering, as Python's `str.lower` acts on ASCII characters. -/
def pyToLower (c : Char) : Char :=
  if 65 ≤ c.toNat ∧ c.toNat ≤ 90 then Char.ofNat (c.toNat + 32) else c

/-- Membership in `[a-z0-9]`, the characters `normalize_name` keeps. -/
def isLowerAlnum (c : Char) : Bool :=
  decide (97 ≤ c.toNat ∧ c.toNat ≤ 122) || decide (48 ≤ c.toNat ∧ c.toNat ≤ 57)

/-- `normalize_name` (line 55): lowercase and strip all non-alphanumeric
characters, i.e. `re.sub(r"[^a-z0-9]+", "", s.lower())`. -/
def normalize_name (s : Str) : Str :=
  (s.map pyToLower).filter isLowerAlnum

/-- ASCII whitespace, the characters matched by the regex class `\s`
and stripped by Python's `str.strip`. -/
def isPySpace (c : Char) : Bool :=
  c == ' ' || c == '\t' || c == '\n' || c == '\r' || c == '\x0b' || c == '\x0c'

/-- Python's `str.strip()`: remove leading and trailing whitespace. -/
def pyStrip (s : Str) : Str :=
  ((s.dropWhile isPySpace).reverse.dropWhile isPySpace).reverse

/-- Helper for splitting a string on runs of separator characters,
dropping empty pieces (the behaviour of `re.split` on a separator class
followed by filtering out empty tokens). -/
def wordsByAux (p : Char → Bool) : Str → Str → List Str
  | [], acc => if acc = [] then [] else [acc.reverse]
  | c :: cs, acc =>
    if p c then
      (if acc = [] then wordsByAux p cs [] else acc.reverse :: wordsByAux p cs [])
    else wordsByAux p cs (c :: acc)

def wordsBy (p : Char → Bool) (s : Str) : List Str := wordsByAux p s []

/-- Python dict lookup on an association list whose keys are kept unique. -/
def dictGet {β : Type} (k : Str) : List (Str × β) → Option β
  | [] => none
  | p :: rest => if p.1 = k then some p.2 else dictGet k rest

/-- Python dict assignment `d[k] = v`: replace in place when the key is
present (keeping its position), append at the end otherwise. -/
def dictInsert {β : Type} (k : Str) (v : β) : List (Str × β) → List (Str × β)
  | [] => [(k, v)]
  | p :: rest => if p.1 = k then (k, v) :: rest else p :: dictInsert k v rest

/-- The persisted directory configuration: the `"aliases"` map
(pretty name → entity id) and the `"groups"` map (pretty name → members). -/
structure DirectoryConfig where
  aliases : List (Str × Str)
  groups : List (Str × List Str)
deriving DecidableEq

/-- `!alias add` (line 405): `self.cfg["aliases"][name] = entity_id`,
keyed by the raw pretty name. -/
def upsertAlias (cfg : DirectoryConfig) (name entityId : Str) : DirectoryConfig :=
  { cfg with aliases := dictInsert name entityId cfg.aliases }

/-- The reply of a delete command (lines 424 and 505). -/
inductive DelReply where
  | removed
  | notFound
deriving DecidableEq

def delReplyOf (deleted : Bool) : DelReply :=
  if deleted then DelReply.removed else DelReply.notFound

/-- `!alias del` (lines 416-421): delete every stored alias whose
normalized pretty name equals the normalized argument; the flag records
whether anything was deleted. -/
def deleteAliasCmd (cfg : DirectoryConfig) (name : Str) : DirectoryConfig × Bool :=
  ({ cfg with aliases :=
      cfg.aliases.filter (fun p => decide (normalize_name p.1 ≠ normalize_name name)) },
   cfg.aliases.any (fun p => decide (normalize_name p.1 = normalize_name name)))

/-- `!group del` (lines 497-502): same deletion loop over the groups map. -/
def deleteGroupCmd (cfg : DirectoryConfig) (name : Str) : DirectoryConfig × Bool :=
  ({ cfg with groups :=
      cfg.groups.filter (fun p => decide (normalize_name p.1 ≠ normalize_name name)) },
   cfg.groups.any (fun p => decide (normalize_name p.1 = normalize_name name)))

def jquote (s : Str) : Str := '\"' :: (s ++ ['\"'])

def commaJoin (xs : List Str) : Str := (List.intersperse ((", ").toList) xs).flatten

def lbraceC : Char := Char.ofNat 123

def rbraceC : Char := Char.ofNat 125

def renderAliases (l : List (Str × Str)) : Str :=
  lbraceC :: (commaJoin (l.map (fun p => jquote p.1 ++ ((": ").toList) ++ jquote p.2)) ++ [rbraceC])

def renderMembers (ms : List Str) : Str := '[' :: (commaJoin (ms.map jquote) ++ [']'])

def renderGroups (l : List (Str × List Str)) : Str :=
  lbraceC :: (commaJoin (l.map (fun p => jquote p.1 ++ ((": ").toList) ++ renderMembers p.2)) ++ [rbraceC])

/-- `save_config` (lines 51-53): the bytes written are `json.dump` of the
configuration with fixed arguments, a deterministic function of the
configuration contents alone (indentation and escaping details abstracted). -/
def save_config (cfg : DirectoryConfig) : Str :=
  lbraceC :: (jquote (("aliases").toList) ++ ((": ").toList) ++ renderAliases cfg.aliases ++
    ((", ").toList) ++ jquote (("groups").toList) ++ ((": ").toList) ++
    renderGroups cfg.groups ++ [rbraceC])

/-- JSON values, as produced by `json.load`. -/
inductive JVal where
  | jnull
  | jbool (b : Bool)
  | jnum (n : Int)
  | jstr (s : Str)
  | jarr (xs : List JVal)
  | jobj (fields : List (Str × JVal))

def aliasesKey : Str := ("aliases").toList

def groupsKey : Str := ("groups").toList

/-- `DEFAULT_CONFIG` (line 29): `{"aliases": {}, "groups": {}}`. -/
def defaultConfigJ : JVal := JVal.jobj [(aliasesKey, JVal.jobj []), (groupsKey, JVal.jobj [])]

/-- Python's `dict.setdefault(k, v)`: insert `(k, v)` at the end when the
key is absent, leave the dict unchanged when it is present. -/
def jSetdefault (k : Str) (v : JVal) (fields : List (Str × JVal)) : List (Str × JVal) :=
  if (dictGet k fields).isSome then fields else fields ++ [(k, v)]

/-- The fields of the loaded document after the two `setdefault` calls of
`load_config` (lines 44-45). -/
def loadedFields (fields : List (Str × JVal)) : List (Str × JVal) :=
  jSetdefault groupsKey (JVal.jobj []) (jSetdefault aliasesKey (JVal.jobj []) fields)

/-- Outcome of reading the persisted file: missing on disk, a read/parse
exception, or a successfully parsed JSON document. -/
inductive LoadInput where
  | missing
  | failure
  | parsed (j : JVal)

/-- `load_config` (lines 37-49): a missing file, a read/parse exception, or
a parsed document that is not a dict all yield a copy of `DEFAULT_CONFIG`;
a parsed dict gets `"aliases"` and `"groups"` filled in by `setdefault`. -/
def load_config : LoadInput → JVal
  | LoadInput.missing => defaultConfigJ
  | LoadInput.failure => defaultConfigJ
  | LoadInput.parsed j =>
    match j with
    | JVal.jobj fields => JVal.jobj (loadedFields fields)
    | _ => defaultConfigJ

/-- One catalog entity as built by `build_entity_index` (lines 141-147). -/
structure Entity where
  entity_id : Str
  friendly : Str
  norm_friendly : Str
  norm_entity : Str
  domain : Str
deriving DecidableEq

/-- The per-item construction of `build_entity_index` (lines 132-147):
the friendly label defaults to the entity id when absent or empty, the
domain is the id's text before the first dot (empty when there is none). -/
def buildEntity (entityId : Str) (friendlyName : Option Str) : Entity :=
  let friendly := match friendlyName with
    | some s => if s = [] then entityId else s
    | none => entityId
  { entity_id := entityId
    friendly := friendly
    norm_friendly := normalize_name friendly
    norm_entity := normalize_name entityId
    domain := if '.' ∈ entityId then entityId.takeWhile (fun c => !(c == '.')) else [] }

/-- `build_entity_index` (lines 119-155) applied to the fetched records:
the entity list plus the exact-match index from normalized friendly name
and normalized entity id to entity id (later records overwrite earlier
ones on collision). -/
def build_entity_index (items : List (Str × Option Str)) : List Entity × List (Str × Str) :=
  let es := items.map (fun p => buildEntity p.1 p.2)
  (es, es.foldl (fun idx e =>
    let idx1 := if e.norm_friendly ≠ [] then dictInsert e.norm_friendly e.entity_id idx else idx
    if e.norm_entity ≠ [] then dictInsert e.norm_entity e.entity_id idx1 else idx1) [])

/-- The bot's in-memory state (lines 98-101). -/
structure BotState where
  alias_lookup : List (Str × (Str × Str))
  group_lookup : List (Str × (Str × List Str))
  entities : List Entity
  exact_index : List (Str × Str)
deriving DecidableEq

def rebuildAliasStep (lk : List (Str × (Str × Str))) (p : Str × Str) :
    List (Str × (Str × Str)) :=
  if normalize_name p.1 ≠ [] then dictInsert (normalize_name p.1) p lk else lk

/-- The alias lookup built by `rebuild_lookups_from_cfg` (lines 108-111):
normalized pretty name → (pretty name, entity id), skipping names whose
normalization is empty, later entries overwriting earlier ones. -/
def alias_lookup_of (cfg : DirectoryConfig) : List (Str × (Str × Str)) :=
  cfg.aliases.foldl rebuildAliasStep []

def rebuildGroupStep (lk : List (Str × (Str × List Str))) (p : Str × List Str) :
    List (Str × (Str × List Str)) :=
  if normalize_name p.1 ≠ [] then dictInsert (normalize_name p.1) p lk else lk

/-- The group lookup built by `rebuild_lookups_from_cfg` (lines 113-116). -/
def group_lookup_of (cfg : DirectoryConfig) : List (Str × (Str × List Str)) :=
  cfg.groups.foldl rebuildGroupStep []

/-- `rebuild_lookups_from_cfg` (lines 104-116) together with a given
catalog snapshot. -/
def rebuild_lookups_from_cfg (cfg : DirectoryConfig) (entities : List Entity)
    (exactIndex : List (Str × Str)) : BotState :=
  { alias_lookup := alias_lookup_of cfg
    group_lookup := group_lookup_of cfg
    entities := entities
    exact_index := exactIndex }

/-- The preferred controllable domains (line 214). -/
def preferred_domains : List Str := [("light").toList, ("switch").toList, ("fan").toList]

/-- Prefix test on character lists. -/
def strStartsWith : Str → Str → Bool
  | [], _ => true
  | _ :: _, [] => false
  | c :: cs, d :: ds => c == d && strStartsWith cs ds

/-- Python's substring containment `needle in hay`. -/
def strContains (needle : Str) : Str → Bool
  | [] => decide (needle = [])
  | c :: rest => strStartsWith needle (c :: rest) || strContains needle rest

/-- The contains-based candidate collection of `_resolve_against_ha`
(lines 209-212): entities whose normalized friendly name or normalized id
contains the normalized input as a substring. -/
def substringCandidates (st : BotState) (normInput : Str) : List Entity :=
  st.entities.filter (fun e =>
    strContains normInput e.norm_friendly || strContains normInput e.norm_entity)

/-- The preferred-domain refinement (line 216). -/
def preferredOf (candidates : List Entity) : List Entity :=
  candidates.filter (fun e => preferred_domains.contains e.domain)

/-- The token-based candidate collection (lines 225-229): entities whose
lower-cased friendly label contains every whitespace token of the
lower-cased input. -/
def tokenCandidates (st : BotState) (tokens : List Str) : List Entity :=
  st.entities.filter (fun e => tokens.all (fun t => strContains t (e.friendly.map pyToLower)))

/-- The token-based pass of `_resolve_against_ha` (lines 223-235): it runs
only when the contains-based candidate set is empty, and the function then
returns `(None, candidates)` for whatever candidate set is current. -/
def resolve_token_pass (st : BotState) (name : Str) (candidates : List Entity) :
    Option Str × List Entity :=
  let tokens := wordsBy isPySpace (name.map pyToLower)
  if candidates = [] ∧ tokens ≠ [] then
    match tokenCandidates st tokens with
    | [e] => (some e.entity_id, [e])
    | tc => if tc ≠ [] then (none, tc) else (none, candidates)
  else (none, candidates)

/-- `_resolve_against_ha` (lines 199-235): empty normalization → no match;
exact-index hit → immediate return; otherwise contains-based candidates,
preferred-domain refinement (a unique preferred candidate is returned, more
than one narrows the candidate set), then the token-based pass. -/
def resolve_against_ha (st : BotState) (name : Str) : Option Str × List Entity :=
  if normalize_name name = [] then (none, [])
  else
    match dictGet (normalize_name name) st.exact_index with
    | some eid => (some eid, [])
    | none =>
      let candidates := substringCandidates st (normalize_name name)
      if candidates = [] then resolve_token_pass st name candidates
      else
        match preferredOf candidates with
        | [e] => (some e.entity_id, [e])
        | preferredList =>
          resolve_token_pass st name
            (if 1 < preferredList.length then preferredList else candidates)

/-- The per-member expansion rule of the group branch of
`resolve_single_target` (lines 172-187): alias name first, then a literal
entity id when the member contains a dot, then the catalog fuzzy match. -/
def expandMember (st : BotState) (m : Str) : Option Str :=
  match dictGet (normalize_name m) st.alias_lookup with
  | some pe => some pe.2
  | none =>
    if '.' ∈ m then some m
    else (resolve_against_ha st m).1

/-- The member expansion loop of `resolve_single_target` (lines 171-187),
appending each resolved member in order. -/
def expandMembers (st : BotState) (members : List Str) : List Str :=
  members.foldl (fun expanded m =>
    match dictGet (normalize_name m) st.alias_lookup with
    | some pe => expanded ++ [pe.2]
    | none =>
      if '.' ∈ m then expanded ++ [m]
      else
        match (resolve_against_ha st m).1 with
        | some ent => expanded ++ [ent]
        | none => expanded) []

/-- `list(dict.fromkeys(expanded))` (line 188): de-duplicate keeping the
first occurrence of each element, preserving order. -/
def dedupKeepFirst {α : Type} [DecidableEq α] (l : List α) : List α :=
  l.foldl (fun acc x => if x ∈ acc then acc else acc ++ [x]) []

/-- `resolve_single_target` (lines 158-197): groups take precedence, then
aliases, then the catalog fuzzy match. -/
def resolve_single_target (st : BotState) (targetName : Str) : List Str × List Entity :=
  match dictGet (normalize_name targetName) st.group_lookup with
  | some pm => (dedupKeepFirst (expandMembers st pm.2), [])
  | none =>
    match dictGet (normalize_name targetName) st.alias_lookup with
    | some pe => ([pe.2], [])
    | none =>
      ((resolve_against_ha st targetName).1.toList, (resolve_against_ha st targetName).2)

/-- How `on_message` (lines 351-370) treats one resolved phrase: dispatch
webhooks when ids were found, otherwise a close-matches suggestion list
(capped at 5) or a plain no-match failure line. -/
inductive DispatchOutcome where
  | dispatchTo (ids : List Str)
  | closeMatches (shown : List Entity)
  | noMatch
deriving DecidableEq

def classifyResolution (st : BotState) (name : Str) : DispatchOutcome :=
  let r := resolve_single_target st name
  if r.1 = [] then
    if r.2 ≠ [] then DispatchOutcome.closeMatches (r.2.take 5) else DispatchOutcome.noMatch
  else DispatchOutcome.dispatchTo r.1

/-- The character class `[0-9 ,\-andto]` of the suffix regex (line 246),
case-insensitive. -/
def classOK (c : Char) : Bool :=
  decide (48 ≤ c.toNat ∧ c.toNat ≤ 57) || c == ' ' || c == ',' || c == '-' ||
  pyToLower c == 'a' || pyToLower c == 'n' || pyToLower c == 'd' ||
  pyToLower c == 't' || pyToLower c == 'o'

/-- Matching `\s+([0-9 ,\-andto]+)$` against `r`: the greedy `\s+` takes the
longest whitespace run that still leaves a non-empty all-class suffix
(backtracking one character at a time, since a space is also in the class). -/
def backtrackClass (r : Str) : Nat → Option Str
  | 0 => none
  | j + 1 =>
    let tailPart := r.drop (j + 1)
    if decide (tailPart ≠ []) && tailPart.all classOK then some tailPart
    else backtrackClass r j

def splitWsClass (r : Str) : Option Str :=
  backtrackClass r (r.takeWhile isPySpace).length

/-- The lazy `(.+?)` scan of `re.match(r"(.+?)\s+([0-9 ,\-andto]+)$", text)`:
try prefix lengths from 1 upwards (a prefix may not contain a newline,
which `.` does not match) and stop at the first length whose remainder
decomposes as whitespace followed by a class-only suffix. -/
def scanFrom (text : Str) : Nat → Nat → Option (Str × Str)
  | 0, _ => none
  | fuel + 1, i =>
    if text.length ≤ i then none
    else if (text.take i).any (fun c => c == '\n') then none
    else
      match splitWsClass (text.drop i) with
      | some suffixPart => some (text.take i, suffixPart)
      | none => scanFrom text fuel (i + 1)

def reMatchSuffix (text : Str) : Option (Str × Str) := scanFrom text text.length 1

/-- Regex word characters `[a-zA-Z0-9_]`, for `\b`. -/
def isWordChar (c : Char) : Bool :=
  decide (97 ≤ c.toNat ∧ c.toNat ≤ 122) || decide (65 ≤ c.toNat ∧ c.toNat ≤ 90) ||
  decide (48 ≤ c.toNat ∧ c.toNat ≤ 57) || c == '_'

def boundaryOk : Option Char → Bool
  | none => true
  | some c => !isWordChar c

def boundaryAfterOk : Str → Bool
  | [] => true
  | c :: _ => !isWordChar c

/-- Case-insensitive prefix test (the replaced words are lowercase). -/
def ciMatches (w s : Str) : Bool := w == (s.take w.length).map pyToLower

/-- `re.sub(r"\bw\b", rep, s, flags=re.IGNORECASE)`: scan left to right,
replacing non-overlapping word-boundary occurrences of `w`. -/
def subWordAux (w rep : Str) : Nat → Option Char → Str → Str
  | 0, _, s => s
  | _ + 1, _, [] => []
  | fuel + 1, prev, c :: cs =>
    if ciMatches w (c :: cs) && boundaryOk prev && boundaryAfterOk ((c :: cs).drop w.length) then
      rep ++ subWordAux w rep fuel (some (((c :: cs).take w.length).getLastD c))
        ((c :: cs).drop w.length)
    else c :: subWordAux w rep fuel (some c) cs

def subWordCI (w rep s : Str) : Str := subWordAux w rep s.length none s

/-- Non-empty all-ASCII-digits test, Python's `str.isdigit` on the
characters that can appear here. -/
def isDigits (s : Str) : Bool :=
  decide (s ≠ []) && s.all (fun c => decide (48 ≤ c.toNat ∧ c.toNat ≤ 57))

def strToNat (s : Str) : Nat := s.foldl (fun acc c => acc * 10 + (c.toNat - 48)) 0

/-- The per-token number extraction of `expand_numbers_suffix`
(lines 257-270): a token containing a hyphen is split once at it and kept
only when both halves are digits and the range is ascending; otherwise the
token itself must be all digits. -/
def tokenNums (token0 : Str) : List Nat :=
  let token := pyStrip token0
  if token = [] then []
  else if '-' ∈ token then
    let a := pyStrip (token.takeWhile (fun c => !(c == '-')))
    let b := pyStrip ((token.dropWhile (fun c => !(c == '-'))).drop 1)
    if isDigits a && isDigits b then
      if strToNat a ≤ strToNat b then List.range' (strToNat a) (strToNat b + 1 - strToNat a)
      else []
    else []
  else if isDigits token then [strToNat token] else []

def insertSorted (n : Nat) : List Nat → List Nat
  | [] => [n]
  | m :: ms => if n ≤ m then n :: m :: ms else m :: insertSorted n ms

def sortNats (l : List Nat) : List Nat := l.foldr insertSorted []

/-- Lines 253-270: replace word `and` by a comma and word `to` by a hyphen,
split on commas/whitespace, extract the numbers and return them as the
sorted set `sorted(numbers)`. -/
def numbersFromSuffix (numsPart : Str) : List Nat :=
  let n1 := subWordCI (("and").toList) ((",").toList) numsPart
  let n2 := subWordCI (("to").toList) (("-").toList) n1
  let tokens := wordsBy (fun c => c == ',' || isPySpace c) n2
  sortNats (dedupKeepFirst (tokens.foldl (fun acc t => acc ++ tokenNums t) []))

/-- Line 243: `any(x in text for x in [",", " and ", "-", " to "])`. -/
def hasAnySeparator (text : Str) : Bool :=
  strContains ((",").toList) text || strContains ((" and ").toList) text ||
  strContains (("-").toList) text || strContains ((" to ").toList) text

def digitChar (d : Nat) : Char := Char.ofNat (48 + d)

def natToStrAux : Nat → Nat → Str
  | 0, _ => []
  | fuel + 1, n => if n < 10 then [digitChar n] else natToStrAux fuel (n / 10) ++ [digitChar (n % 10)]

def natToStr (n : Nat) : Str := natToStrAux (n + 1) n

/-- `expand_numbers_suffix` (lines 237-275). -/
def expand_numbers_suffix (rawTarget : Str) : List Str :=
  let text := pyStrip rawTarget
  if hasAnySeparator text = false then [text]
  else
    match reMatchSuffix text with
    | none => [text]
    | some (g1, g2) =>
      let base := pyStrip g1
      let numbers := numbersFromSuffix g2
      if numbers = [] then [text]
      else numbers.map (fun n => base ++ ' ' :: natToStr n)

/-- Catalog fixture of the specification's fuzzy-resolution example. -/
def kitchenItems : List (Str × Option Str) :=
  [(("sensor.kitchen_temp").toList, some (("Kitchen Temp").toList)),
   (("light.kitchen").toList, some (("Kitchen Light").toList))]

def kitchenState : BotState :=
  { alias_lookup := []
    group_lookup := []
    entities := (build_entity_index kitchenItems).1
    exact_index := (build_entity_index kitchenItems).2 }

def kitchenLightEntity : Entity :=
  buildEntity (("light.kitchen").toList) (some (("Kitchen Light").toList))

def downstairsCfg : DirectoryConfig :=
  { aliases := [(("Kitchen Light").toList, ("light.kitchen").toList)]
    groups := [(("Downstairs").toList, [("Kitchen Light").toList, ("switch.fan1").toList])] }

def downstairsState : BotState := rebuild_lookups_from_cfg downstairsCfg [] []

def porchCfg : DirectoryConfig :=
  { aliases := [(("Porch").toList, ("light.porch").toList)]
    groups := [(("Porch").toList, [("switch.porch1").toList])] }

def porchState : BotState := rebuild_lookups_from_cfg porchCfg [] []

def ghostCfg : DirectoryConfig :=
  { aliases := []
    groups := [(("Ghost").toList, [("nonexistent").toList])] }

def ghostState : BotState := rebuild_lookups_from_cfg ghostCfg [] []

def emptyCfg : DirectoryConfig := { aliases := [], groups := [] }

def sampleCfg : DirectoryConfig :=
  { aliases := [(("Lamp").toList, ("light.lamp1").toList)]
    groups := [(("Movie").toList, [("light.lamp1").toList])] }

/-- The configuration after `!alias add "Living Room" light.one` and then
`!alias add "living-room" light.two` over an empty directory. -/
def lrCfg : DirectoryConfig :=
  upsertAlias (upsertAlias emptyCfg (("Living Room").toList) (("light.one").toList))
    (("living-room").toList) (("light.two").toList)

theorem pyToLower_of_lowerAlnum {c : Char} (h : isLowerAlnum c = true) : pyToLower c = c := by
  simp only [isLowerAlnum, Bool.or_eq_true, decide_eq_true_eq] at h
  unfold pyToLower
  rw [if_neg (by rcases h with h | h <;> omega)]

theorem filter_map_self_of_lowerAlnum :
    ∀ l : Str, (∀ c ∈ l, isLowerAlnum c = true) → (l.map pyToLower).filter isLowerAlnum = l := by
  intro l
  induction l with
  | nil => intro _; rfl
  | cons c cs ih =>
    intro h
    have hc := h c (List.mem_cons_self c cs)
    simp [pyToLower_of_lowerAlnum hc, hc, ih (fun d hd => h d (List.mem_cons_of_mem c hd))]

/-- C9: normalize is idempotent: for every string s,
normalize(normalize(s)) == normalize(s), where normalize lower-cases s and
strips every character outside [a-z0-9]. -/
theorem c9_normalize_idempotent (s : Str) :
    normalize_name (normalize_name s) = normalize_name s := by
  have hmem : ∀ c ∈ normalize_name s, isLowerAlnum c = true := by
    intro c hc
    exact (List.mem_filter.mp hc).2
  exact filter_map_self_of_lowerAlnum (normalize_name s) hmem

/-- C4: the claim says expandNumericSuffix("light 2 to 4") returns
["light 2", "light 3", "light 4"], as the code's own docstring promises
("Supports ranges like '1-4' and '1 to 4'"); the code instead replaces the
word "to" by a bare hyphen surrounded by the original spaces, so the token
split yields "2", "-", "4", the "-" token parses to nothing, and only the
endpoints survive: the result is ["light 2", "light 4"]. -/
theorem c4_to_range_eval :
    expand_numbers_suffix (("light 2 to 4").toList) =
      [("light 2").toList, ("light 4").toList] ∧
    expand_numbers_suffix (("light 2 to 4").toList) ≠
      [("light 2").toList, ("light 3").toList, ("light 4").toList] := by
  constructor
  · decide
  · decide

/-- C6 (amended): when no numbers are extracted from the trailing suffix,
or the suffix pattern fails to match, or the phrase has none of the four
separators, expand_numbers_suffix returns the whitespace-STRIPPED phrase as
a single-element list (the function strips its input first, so the original
phrase is returned unchanged exactly when it carries no surrounding
whitespace). -/
theorem c6_fallback_stripped (raw : Str) :
    (hasAnySeparator (pyStrip raw) = false →
      expand_numbers_suffix raw = [pyStrip raw]) ∧
    (reMatchSuffix (pyStrip raw) = none →
      expand_numbers_suffix raw = [pyStrip raw]) ∧
    (∀ g1 g2, reMatchSuffix (pyStrip raw) = some (g1, g2) →
      numbersFromSuffix g2 = [] →
      expand_numbers_suffix raw = [pyStrip raw]) := by
  refine ⟨?_, ?_, ?_⟩
  · intro h
    simp [expand_numbers_suffix, h]
  · intro h
    by_cases hsep : hasAnySeparator (pyStrip raw) = false
    · simp [expand_numbers_suffix, hsep]
    · simp [expand_numbers_suffix, hsep, h]
  · intro g1 g2 hm hn
    by_cases hsep : hasAnySeparator (pyStrip raw) = false
    · simp [expand_numbers_suffix, hsep]
    · simp [expand_numbers_suffix, hsep, hm, hn]

/-- Witness for C6 at "light 5-2": the descending range is dropped, no
numbers survive, and the (already stripped) phrase comes back unchanged. -/
theorem c6_fallback_stripped_witness :
    expand_numbers_suffix (("light 5-2").toList) = [pyStrip (("light 5-2").toList)] :=
  (c6_fallback_stripped (("light 5-2").toList)).2.2
    (("light").toList) (("5-2").toList) (by decide) (by decide)

/-- Counterexample for C6 as stated: " light 5-2" has surrounding
whitespace, extracts no numbers, and is NOT returned unchanged — the
stripped phrase "light 5-2" is returned instead. -/
theorem c6_original_not_returned :
    expand_numbers_suffix ((" light 5-2").toList) ≠ [(" light 5-2").toList] ∧
    expand_numbers_suffix ((" light 5-2").toList) = [("light 5-2").toList] := by
  constructor
  · decide
  · decide

theorem dictGet_append_some {β : Type} {k : Str} {l : List (Str × β)} {v : β}
    (m : List (Str × β)) (h : dictGet k l = some v) : dictGet k (l ++ m) = some v := by
  induction l with
  | nil => simp [dictGet] at h
  | cons p rest ih =>
    by_cases hp : p.1 = k
    · simp [dictGet, hp] at h ⊢
      exact h
    · simp [dictGet, hp] at h ⊢
      exact ih h

theorem dictGet_append_none {β : Type} {k : Str} {l : List (Str × β)}
    (m : List (Str × β)) (h : dictGet k l = none) : dictGet k (l ++ m) = dictGet k m := by
  induction l with
  | nil => simp
  | cons p rest ih =>
    by_cases hp : p.1 = k
    · simp [dictGet, hp] at h
    · simp [dictGet, hp] at h ⊢
      exact ih h

/-- C7: deleting an alias or group whose normalized name matches no stored
entry returns the "not found" reply and leaves both the configuration and
the persisted bytes unchanged. -/
theorem c7_delete_missing_noop (cfg : DirectoryConfig) (name : Str) :
    ((∀ p ∈ cfg.aliases, normalize_name p.1 ≠ normalize_name name) →
      deleteAliasCmd cfg name = (cfg, false) ∧
      delReplyOf (deleteAliasCmd cfg name).2 = DelReply.notFound ∧
      save_config (deleteAliasCmd cfg name).1 = save_config cfg) ∧
    ((∀ p ∈ cfg.groups, normalize_name p.1 ≠ normalize_name name) →
      deleteGroupCmd cfg name = (cfg, false) ∧
      delReplyOf (deleteGroupCmd cfg name).2 = DelReply.notFound ∧
      save_config (deleteGroupCmd cfg name).1 = save_config cfg) := by
  constructor
  · intro h
    have hcmd : deleteAliasCmd cfg name = (cfg, false) := by
      unfold deleteAliasCmd
      have hf : cfg.aliases.filter
          (fun p => decide (normalize_name p.1 ≠ normalize_name name)) = cfg.aliases :=
        List.filter_eq_self.mpr (fun p hp => by simpa using h p hp)
      have ha : cfg.aliases.any
          (fun p => decide (normalize_name p.1 = normalize_name name)) = false := by
        rw [List.any_eq_false]
        intro p hp
        simpa using h p hp
      rw [hf, ha]
    exact ⟨hcmd, by rw [hcmd]; rfl, by rw [hcmd]⟩
  · intro h
    have hcmd : deleteGroupCmd cfg name = (cfg, false) := by
      unfold deleteGroupCmd
      have hf : cfg.groups.filter
          (fun p => decide (normalize_name p.1 ≠ normalize_name name)) = cfg.groups :=
        List.filter_eq_self.mpr (fun p hp => by simpa using h p hp)
      have ha : cfg.groups.any
          (fun p => decide (normalize_name p.1 = normalize_name name)) = false := by
        rw [List.any_eq_false]
        intro p hp
        simpa using h p hp
      rw [hf, ha]
    exact ⟨hcmd, by rw [hcmd]; rfl, by rw [hcmd]⟩

/-- Witness for C7 at a concrete configuration and a name matching no entry. -/
theorem c7_delete_missing_noop_witness :
    deleteAliasCmd sampleCfg (("nothere").toList) = (sampleCfg, false) ∧
    deleteGroupCmd sampleCfg (("nothere").toList) = (sampleCfg, false) :=
  ⟨((c7_delete_missing_noop sampleCfg (("nothere").toList)).1 (by decide)).1,
   ((c7_delete_missing_noop sampleCfg (("nothere").toList)).2 (by decide)).1⟩

theorem dictGet_jSetdefault_some {k k2 : Str} {v : JVal} (w : JVal)
    {l : List (Str × JVal)} (h : dictGet k l = some v) :
    dictGet k (jSetdefault k2 w l) = some v := by
  unfold jSetdefault
  by_cases hs : (dictGet k2 l).isSome
  · simp [hs, h]
  · simp [hs, dictGet_append_some _ h]

theorem dictGet_jSetdefault_other {k k2 : Str} (w : JVal)
    {l : List (Str × JVal)} (hne : k2 ≠ k) (h : dictGet k l = none) :
    dictGet k (jSetdefault k2 w l) = none := by
  unfold jSetdefault
  by_cases hs : (dictGet k2 l).isSome
  · simp [hs, h]
  · simp only [hs, Bool.false_eq_true, if_false]
    rw [dictGet_append_none _ h]
    simp [dictGet, hne]

theorem dictGet_jSetdefault_self {k : Str} (w : JVal)
    {l : List (Str × JVal)} (h : dictGet k l = none) :
    dictGet k (jSetdefault k w l) = some w := by
  unfold jSetdefault
  rw [h]
  simp only [Option.isSome_none, Bool.false_eq_true, if_false]
  rw [dictGet_append_none _ h]
  simp [dictGet]

/-- C8: a missing, unreadable or unparseable persisted file loads as the
empty configuration; a parsed document missing the aliases or groups
section gets that section defaulted to the empty map, with present
sections preserved. -/
theorem c8_load_defaults (fields : List (Str × JVal)) :
    load_config LoadInput.missing = defaultConfigJ ∧
    load_config LoadInput.failure = defaultConfigJ ∧
    load_config (LoadInput.parsed (JVal.jobj fields)) = JVal.jobj (loadedFields fields) ∧
    (dictGet aliasesKey fields = none →
      dictGet aliasesKey (loadedFields fields) = some (JVal.jobj [])) ∧
    (dictGet groupsKey fields = none →
      dictGet groupsKey (loadedFields fields) = some (JVal.jobj [])) ∧
    (∀ k v, dictGet k fields = some v → dictGet k (loadedFields fields) = some v) := by
  refine ⟨rfl, rfl, rfl, ?_, ?_, ?_⟩
  · intro hA
    unfold loadedFields
    exact dictGet_jSetdefault_some _ (dictGet_jSetdefault_self _ hA)
  · intro hG
    unfold loadedFields
    have hG2 : dictGet groupsKey (jSetdefault aliasesKey (JVal.jobj []) fields) = none :=
      dictGet_jSetdefault_other _ (by decide) hG
    exact dictGet_jSetdefault_self _ hG2
  · intro k v h
    exact dictGet_jSetdefault_some _ (dictGet_jSetdefault_some _ h)

/-- Witness for C8 at a document with neither section. -/
theorem c8_load_defaults_witness :
    dictGet aliasesKey (loadedFields [(("other").toList, JVal.jnull)]) = some (JVal.jobj []) ∧
    dictGet groupsKey (loadedFields [(("other").toList, JVal.jnull)]) = some (JVal.jobj []) :=
  ⟨(c8_load_defaults [(("other").toList, JVal.jnull)]).2.2.2.1 rfl,
   (c8_load_defaults [(("other").toList, JVal.jnull)]).2.2.2.2.1 rfl⟩

theorem dictGet_dictInsert_self {β : Type} (k : Str) (v : β) (l : List (Str × β)) :
    dictGet k (dictInsert k v l) = some v := by
  induction l with
  | nil => simp [dictGet, dictInsert]
  | cons p rest ih =>
    by_cases h : p.1 = k
    · simp [dictInsert, h, dictGet]
    · simp [dictInsert, h, dictGet, ih]

theorem dictInsert_of_not_mem {β : Type} {k : Str} (v : β) {l : List (Str × β)}
    (h : ∀ p ∈ l, p.1 ≠ k) : dictInsert k v l = l ++ [(k, v)] := by
  induction l with
  | nil => rfl
  | cons p rest ih =>
    have hp : p.1 ≠ k := h p (List.mem_cons_self p rest)
    simp only [dictInsert, if_neg hp, List.cons_append, List.cons.injEq, true_and]
    exact ih (fun q hq => h q (List.mem_cons_of_mem p hq))

theorem dictInsert_append_of_not_mem {β : Type} {k : Str} (v : β) {l : List (Str × β)}
    (m : List (Str × β)) (h : ∀ p ∈ l, p.1 ≠ k) :
    dictInsert k v (l ++ m) = l ++ dictInsert k v m := by
  induction l with
  | nil => rfl
  | cons p rest ih =>
    have hp : p.1 ≠ k := h p (List.mem_cons_self p rest)
    simp only [List.cons_append, dictInsert, if_neg hp, List.cons.injEq, true_and]
    exact ih (fun q hq => h q (List.mem_cons_of_mem p hq))

theorem nodup_append_singleton {α : Type} {l : List α} {a : α}
    (h : l.Nodup) (ha : a ∉ l) : (l ++ [a]).Nodup := by
  rw [List.nodup_append]
  exact ⟨h, List.nodup_singleton a, fun x hx hxa => ha ((List.mem_singleton.mp hxa) ▸ hx)⟩

theorem dictInsert_map_fst {β : Type} (k : Str) (v : β) (l : List (Str × β)) :
    (dictInsert k v l).map Prod.fst =
      if k ∈ l.map Prod.fst then l.map Prod.fst else l.map Prod.fst ++ [k] := by
  induction l with
  | nil => simp [dictInsert]
  | cons p rest ih =>
    by_cases h : p.1 = k
    · subst h
      have h1 : dictInsert p.1 v (p :: rest) = (p.1, v) :: rest := by
        simp only [dictInsert, if_true]
      rw [h1]
      simp only [List.map_cons]
      rw [if_pos (List.mem_cons_self _ _)]
    · simp only [dictInsert, if_neg h, List.map_cons]
      rw [ih]
      by_cases hm : k ∈ rest.map Prod.fst
      · simp [hm, List.mem_cons]
      · simp [hm, List.mem_cons, Ne.symm h]

theorem dictInsert_nodup_keys {β : Type} {l : List (Str × β)} (k : Str) (v : β)
    (h : (l.map Prod.fst).Nodup) : ((dictInsert k v l).map Prod.fst).Nodup := by
  rw [dictInsert_map_fst]
  by_cases hm : k ∈ l.map Prod.fst
  · simpa [hm] using h
  · simp only [hm, if_false]
    exact nodup_append_singleton h hm

theorem foldl_rebuildAliasStep_nodup :
    ∀ (l : List (Str × Str)) (init : List (Str × (Str × Str))),
      (init.map Prod.fst).Nodup → ((l.foldl rebuildAliasStep init).map Prod.fst).Nodup := by
  intro l
  induction l with
  | nil => intro init h; simpa using h
  | cons p rest ih =>
    intro init h
    simp only [List.foldl_cons]
    apply ih
    unfold rebuildAliasStep
    by_cases hn : normalize_name p.1 = []
    · simpa [hn] using h
    · simp only [ne_eq, hn, not_false_iff, if_true]
      exact dictInsert_nodup_keys _ _ h

theorem dictGet_filter_length_one {β : Type} :
    ∀ {l : List (Str × β)} {k : Str} {v : β},
      (l.map Prod.fst).Nodup → dictGet k l = some v →
      (l.filter (fun q => decide (q.1 = k))).length = 1 := by
  intro l
  induction l with
  | nil =>
    intro k v _ hget
    simp [dictGet] at hget
  | cons p rest ih =>
    intro k v hnd hget
    simp only [List.map_cons, List.nodup_cons] at hnd
    by_cases h : p.1 = k
    · have hnil : rest.filter (fun q => decide (q.1 = k)) = [] := by
        apply List.filter_eq_nil_iff.mpr
        intro q hq
        simp only [decide_eq_true_eq]
        intro hqk
        have hmem : q.1 ∈ rest.map Prod.fst := List.mem_map_of_mem Prod.fst hq
        rw [hqk, ← h] at hmem
        exact hnd.1 hmem
      rw [List.filter_cons_of_pos (by simpa using h), hnil]
      rfl
    · have hget2 : dictGet k rest = some v := by
        simpa [dictGet, h] using hget
      rw [List.filter_cons_of_neg (by simpa using h)]
      exact ih hnd.2 hget2

/-- C5 (amended): upserting an alias under pretty name a and then under b
with equal (non-empty) normalizations, starting from a configuration with
no alias of that normalized name, leaves the DERIVED alias lookup with
exactly one entry for that normalized name, holding the entity id of the
second write; the persisted aliases map itself keeps the raw pretty names
as keys, so it ends with one entry when a = b and with BOTH raw entries
when a ≠ b. -/
theorem c5_lookup_last_write (cfg : DirectoryConfig) (a b id1 id2 : Str)
    (hab : normalize_name a = normalize_name b)
    (hne : normalize_name a ≠ [])
    (hno : ∀ p ∈ cfg.aliases, normalize_name p.1 ≠ normalize_name a) :
    ((upsertAlias (upsertAlias cfg a id1) b id2).aliases =
        if a = b then cfg.aliases ++ [(a, id2)] else cfg.aliases ++ [(a, id1), (b, id2)]) ∧
    dictGet (normalize_name a)
        (alias_lookup_of (upsertAlias (upsertAlias cfg a id1) b id2)) = some (b, id2) ∧
    ((alias_lookup_of (upsertAlias (upsertAlias cfg a id1) b id2)).filter
        (fun q => decide (q.1 = normalize_name a))).length = 1 := by
  have haK : ∀ p ∈ cfg.aliases, p.1 ≠ a := fun p hp heq => hno p hp (by rw [heq])
  have hbK : ∀ p ∈ cfg.aliases, p.1 ≠ b := fun p hp heq => hno p hp (by rw [heq, ← hab])
  have hneb : normalize_name b ≠ [] := by rw [← hab]; exact hne
  have h1 : (upsertAlias cfg a id1).aliases = cfg.aliases ++ [(a, id1)] :=
    dictInsert_of_not_mem id1 haK
  have h2 : (upsertAlias (upsertAlias cfg a id1) b id2).aliases =
      if a = b then cfg.aliases ++ [(a, id2)] else cfg.aliases ++ [(a, id1), (b, id2)] := by
    show dictInsert b id2 (upsertAlias cfg a id1).aliases = _
    rw [h1]
    by_cases hab2 : a = b
    · subst hab2
      rw [if_pos rfl, dictInsert_append_of_not_mem id2 _ haK]
      simp [dictInsert]
    · rw [if_neg hab2, dictInsert_of_not_mem id2 ?hb]
      · simp
      case hb =>
        intro p hp
        rcases List.mem_append.mp hp with hl | hr
        · exact hbK p hl
        · rw [List.mem_singleton] at hr
          subst hr
          intro hpb
          exact hab2 hpb
  have hget : dictGet (normalize_name a)
      (alias_lookup_of (upsertAlias (upsertAlias cfg a id1) b id2)) = some (b, id2) := by
    unfold alias_lookup_of
    rw [h2]
    by_cases hab2 : a = b
    · subst hab2
      rw [if_pos rfl, List.foldl_append]
      simp only [List.foldl_cons, List.foldl_nil]
      unfold rebuildAliasStep
      rw [if_pos hne]
      exact dictGet_dictInsert_self _ _ _
    · rw [if_neg hab2, List.foldl_append]
      simp only [List.foldl_cons, List.foldl_nil]
      unfold rebuildAliasStep
      rw [if_pos hneb, if_pos hne, hab]
      exact dictGet_dictInsert_self _ _ _
  have hnodup : ((alias_lookup_of
      (upsertAlias (upsertAlias cfg a id1) b id2)).map Prod.fst).Nodup :=
    foldl_rebuildAliasStep_nodup _ [] (by simp)
  exact ⟨h2, hget, dictGet_filter_length_one hnodup hget⟩

/-- Witness for C5 at "Living Room" then "living-room" over the empty
configuration: the derived lookup maps "livingroom" to the second write. -/
theorem c5_lookup_last_write_witness :
    dictGet (normalize_name (("Living Room").toList))
      (alias_lookup_of (upsertAlias (upsertAlias emptyCfg (("Living Room").toList)
        (("light.one").toList)) (("living-room").toList) (("light.two").toList))) =
      some ((("living-room").toList), ("light.two").toList) :=
  (c5_lookup_last_write emptyCfg (("Living Room").toList) (("living-room").toList)
    (("light.one").toList) (("light.two").toList) (by decide) (by decide) (by decide)).2.1

/-- Counterexample for C5 as stated: after storing under "Living Room" and
then under "living-room" (equal normalizations), the STORED configuration
holds TWO alias entries whose normalized name is "livingroom", not exactly
one — raw pretty names, not normalized names, key the persisted map. -/
theorem c5_two_entries_stored :
    (lrCfg.aliases.filter
      (fun p => decide (normalize_name p.1 = normalize_name (("Living Room").toList)))).length
      = 2 ∧
    ¬ (lrCfg.aliases.filter
      (fun p => decide (normalize_name p.1 = normalize_name (("Living Room").toList)))).length
      = 1 := by
  constructor
  · decide
  · decide

theorem resolve_token_pass_of_nonempty (st : BotState) (name : Str) {cands : List Entity}
    (h : cands ≠ []) : resolve_token_pass st name cands = (none, cands) := by
  simp only [resolve_token_pass]
  rw [if_neg (fun hc => h hc.1)]

theorem expandMembers_eq_filterMap (st : BotState) (members : List Str) :
    expandMembers st members = members.filterMap (expandMember st) := by
  unfold expandMembers
  suffices hgen : ∀ (l : List Str) (acc : List Str),
      l.foldl (fun expanded m =>
        match dictGet (normalize_name m) st.alias_lookup with
        | some pe => expanded ++ [pe.2]
        | none =>
          if '.' ∈ m then expanded ++ [m]
          else
            match (resolve_against_ha st m).1 with
            | some ent => expanded ++ [ent]
            | none => expanded) acc
      = acc ++ l.filterMap (expandMember st) by
    simpa using hgen members []
  intro l
  induction l with
  | nil =>
    intro acc
    simp
  | cons m rest ih =>
    intro acc
    simp only [List.foldl_cons]
    have hstep : (match dictGet (normalize_name m) st.alias_lookup with
        | some pe => acc ++ [pe.2]
        | none =>
          if '.' ∈ m then acc ++ [m]
          else
            match (resolve_against_ha st m).1 with
            | some ent => acc ++ [ent]
            | none => acc)
        = acc ++ (expandMember st m).toList := by
      cases h1 : dictGet (normalize_name m) st.alias_lookup with
      | some pe => simp [expandMember, h1]
      | none =>
        by_cases h2 : '.' ∈ m
        · simp [expandMember, h1, h2]
        · cases h3 : (resolve_against_ha st m).1 <;> simp [expandMember, h1, h2, h3]
    rw [hstep, ih]
    cases h : expandMember st m <;> simp [h]

theorem dedupKeepFirst_nodup {α : Type} [DecidableEq α] (l : List α) :
    (dedupKeepFirst l).Nodup := by
  unfold dedupKeepFirst
  suffices hgen : ∀ (l : List α) (acc : List α), acc.Nodup →
      (l.foldl (fun acc x => if x ∈ acc then acc else acc ++ [x]) acc).Nodup by
    exact hgen l [] List.nodup_nil
  intro l
  induction l with
  | nil =>
    intro acc h
    simpa using h
  | cons x rest ih =>
    intro acc h
    simp only [List.foldl_cons]
    by_cases hx : x ∈ acc
    · rw [if_pos hx]
      exact ih acc h
    · rw [if_neg hx]
      exact ih _ (nodup_append_singleton h hx)

theorem resolve_group_case (st : BotState) (name : Str) {gp : Str} {gms : List Str}
    (h : dictGet (normalize_name name) st.group_lookup = some (gp, gms)) :
    resolve_single_target st name = (dedupKeepFirst (expandMembers st gms), []) := by
  unfold resolve_single_target
  rw [h]

theorem resolve_alias_case (st : BotState) (name : Str) {ap ae : Str}
    (hg : dictGet (normalize_name name) st.group_lookup = none)
    (ha : dictGet (normalize_name name) st.alias_lookup = some (ap, ae)) :
    resolve_single_target st name = ([ae], []) := by
  unfold resolve_single_target
  rw [hg, ha]

theorem resolve_fuzzy_case (st : BotState) (name : Str)
    (hg : dictGet (normalize_name name) st.group_lookup = none)
    (ha : dictGet (normalize_name name) st.alias_lookup = none) :
    resolve_single_target st name =
      ((resolve_against_ha st name).1.toList, (resolve_against_ha st name).2) := by
  unfold resolve_single_target
  rw [hg, ha]

/-- C1: for a phrase whose normalization names a stored group,
resolve_single_target returns exactly the per-member expansion (alias
first, then literal entity id on a dot, then fuzzy best match, members
resolving to nothing contributing nothing), de-duplicated preserving
first-occurrence order, paired with an empty candidate list — even when
the expansion is empty, with no fall-through for the group phrase. -/
theorem c1_group_expansion (st : BotState) (name : Str) (gp : Str) (gms : List Str)
    (h : dictGet (normalize_name name) st.group_lookup = some (gp, gms)) :
    resolve_single_target st name = (dedupKeepFirst (gms.filterMap (expandMember st)), []) ∧
    (resolve_single_target st name).1.Nodup ∧
    (gms.filterMap (expandMember st) = [] → resolve_single_target st name = ([], [])) := by
  have hres := resolve_group_case st name h
  refine ⟨?_, ?_, ?_⟩
  · rw [hres, expandMembers_eq_filterMap]
  · rw [hres]
    exact dedupKeepFirst_nodup _
  · intro he
    rw [hres, expandMembers_eq_filterMap, he]
    rfl

/-- Witness for C1 at the "Downstairs" group over an alias for the kitchen
light and a literal switch id. -/
theorem c1_group_expansion_witness :
    resolve_single_target downstairsState (("downstairs").toList) =
      (dedupKeepFirst (([("Kitchen Light").toList, ("switch.fan1").toList]).filterMap
        (expandMember downstairsState)), []) ∧
    (resolve_single_target downstairsState (("downstairs").toList)).1 =
      [("light.kitchen").toList, ("switch.fan1").toList] := by
  refine ⟨(c1_group_expansion downstairsState (("downstairs").toList) (("Downstairs").toList)
    [("Kitchen Light").toList, ("switch.fan1").toList] (by decide)).1, ?_⟩
  decide

/-- C2: in catalog fuzzy matching, once the substring candidate set is
non-empty: a single preferred-domain (light/switch/fan) candidate is
returned as the sole match; several preferred candidates narrow the
reported candidate set to exactly them; zero preferred candidates keep the
non-preferred candidate set. -/
theorem c2_preferred_narrowing (st : BotState) (name : Str)
    (h0 : normalize_name name ≠ [])
    (h1 : dictGet (normalize_name name) st.exact_index = none)
    (h2 : substringCandidates st (normalize_name name) ≠ []) :
    (∀ e : Entity, preferredOf (substringCandidates st (normalize_name name)) = [e] →
      resolve_against_ha st name = (some e.entity_id, [e])) ∧
    (1 < (preferredOf (substringCandidates st (normalize_name name))).length →
      resolve_against_ha st name =
        (none, preferredOf (substringCandidates st (normalize_name name)))) ∧
    (preferredOf (substringCandidates st (normalize_name name)) = [] →
      resolve_against_ha st name = (none, substringCandidates st (normalize_name name))) := by
  have hbase : resolve_against_ha st name =
      (match preferredOf (substringCandidates st (normalize_name name)) with
       | [e] => (some e.entity_id, [e])
       | preferredList =>
         resolve_token_pass st name
           (if 1 < preferredList.length then preferredList
            else substringCandidates st (normalize_name name))) := by
    simp only [resolve_against_ha]
    rw [if_neg h0, h1, if_neg h2]
  refine ⟨?_, ?_, ?_⟩
  · intro e hp
    rw [hbase, hp]
  · intro hlen
    rcases hpl : preferredOf (substringCandidates st (normalize_name name)) with
      _ | ⟨e1, _ | ⟨e2, tl⟩⟩
    · rw [hpl] at hlen
      simp at hlen
    · rw [hpl] at hlen
      simp at hlen
    · rw [hbase, hpl]
      show resolve_token_pass st name
        (if 1 < (e1 :: e2 :: tl).length then e1 :: e2 :: tl
         else substringCandidates st (normalize_name name)) = (none, e1 :: e2 :: tl)
      rw [if_pos (by simp only [List.length_cons]; omega)]
      exact resolve_token_pass_of_nonempty st name (List.cons_ne_nil _ _)
  · intro hp
    rw [hbase, hp]
    show resolve_token_pass st name
      (if 1 < ([] : List Entity).length then []
       else substringCandidates st (normalize_name name)) =
      (none, substringCandidates st (normalize_name name))
    rw [if_neg (by simp)]
    exact resolve_token_pass_of_nonempty st name h2

/-- Witness for C2 at the specification's example catalog: among
sensor.kitchen_temp and light.kitchen, the phrase "kitchen" resolves to
light.kitchen alone. -/
theorem c2_preferred_narrowing_witness :
    resolve_against_ha kitchenState (("kitchen").toList) =
      (some kitchenLightEntity.entity_id, [kitchenLightEntity]) ∧
    (resolve_single_target kitchenState (("kitchen").toList)).1 =
      [("light.kitchen").toList] := by
  refine ⟨(c2_preferred_narrowing kitchenState (("kitchen").toList)
    (by decide) (by decide) (by decide)).1 kitchenLightEntity (by decide), ?_⟩
  decide

/-- C3: group match takes precedence over alias match, which takes
precedence over catalog fuzzy matching: a phrase naming both a group and
an alias resolves as the group. -/
theorem c3_precedence (st : BotState) (name : Str) :
    (∀ gp gms, dictGet (normalize_name name) st.group_lookup = some (gp, gms) →
      resolve_single_target st name = (dedupKeepFirst (expandMembers st gms), [])) ∧
    (dictGet (normalize_name name) st.group_lookup = none →
      ∀ ap ae, dictGet (normalize_name name) st.alias_lookup = some (ap, ae) →
      resolve_single_target st name = ([ae], [])) ∧
    (dictGet (normalize_name name) st.group_lookup = none →
      dictGet (normalize_name name) st.alias_lookup = none →
      resolve_single_target st name =
        ((resolve_against_ha st name).1.toList, (resolve_against_ha st name).2)) := by
  refine ⟨?_, ?_, ?_⟩
  · intro gp gms h
    exact resolve_group_case st name h
  · intro hg ap ae ha
    exact resolve_alias_case st name hg ha
  · intro hg ha
    exact resolve_fuzzy_case st name hg ha

/-- Witness for C3: "porch" names both a stored alias (to light.porch) and
a stored group (to switch.porch1); the group wins. -/
theorem c3_precedence_witness :
    dictGet (normalize_name (("porch").toList)) porchState.alias_lookup =
      some ((("Porch").toList), ("light.porch").toList) ∧
    resolve_single_target porchState (("porch").toList) =
      (dedupKeepFirst (expandMembers porchState [("switch.porch1").toList]), []) ∧
    (resolve_single_target porchState (("porch").toList)).1 = [("switch.porch1").toList] := by
  refine ⟨by decide, (c3_precedence porchState (("porch").toList)).1 (("Porch").toList)
    [("switch.porch1").toList] (by decide), ?_⟩
  decide

/-- C10: a phrase matching a stored group or alias always returns an empty
candidates list; a matched group whose members all fail to resolve yields
(entityIds = [], candidates = []) and the dispatcher classifies it as a
plain no-match failure with no close-match suggestions. -/
theorem c10_group_alias_no_candidates (st : BotState) (name : Str) :
    (∀ gp gms, dictGet (normalize_name name) st.group_lookup = some (gp, gms) →
      (resolve_single_target st name).2 = []) ∧
    (∀ ap ae, dictGet (normalize_name name) st.alias_lookup = some (ap, ae) →
      (resolve_single_target st name).2 = []) ∧
    (∀ gp gms, dictGet (normalize_name name) st.group_lookup = some (gp, gms) →
      (∀ m ∈ gms, expandMember st m = none) →
      resolve_single_target st name = ([], []) ∧
      classifyResolution st name = DispatchOutcome.noMatch) := by
  refine ⟨?_, ?_, ?_⟩
  · intro gp gms h
    rw [resolve_group_case st name h]
  · intro ap ae ha
    cases hg : dictGet (normalize_name name) st.group_lookup with
    | some pm =>
      obtain ⟨gp, gms⟩ := pm
      rw [resolve_group_case st name hg]
    | none =>
      rw [resolve_alias_case st name hg ha]
  · intro gp gms h hall
    have hmap : gms.filterMap (expandMember st) = [] :=
      List.filterMap_eq_nil_iff.mpr hall
    have hres : resolve_single_target st name = ([], []) := by
      rw [resolve_group_case st name h, expandMembers_eq_filterMap, hmap]
      rfl
    refine ⟨hres, ?_⟩
    unfold classifyResolution
    rw [hres]
    rfl

/-- Witness for C10: the "Ghost" group's sole member resolves to nothing
against an empty catalog, and the dispatcher reports a plain no-match. -/
theorem c10_group_alias_no_candidates_witness :
    resolve_single_target ghostState (("ghost").toList) = ([], []) ∧
    classifyResolution ghostState (("ghost").toList) = DispatchOutcome.noMatch :=
  (c10_group_alias_no_candidates ghostState (("ghost").toList)).2.2
    (("Ghost").toList) [("nonexistent").toList] (by decide) (by decide)
